import Mathlib
/-!
# Finance Hub — verification of the spec against the code

Shallow embedding of the finance-hub repository (Next.js frontend under
`src/frontend`, plus the backend core described by the spec) and proofs of
the frozen claims.

Frontend code present in the repository is embedded directly from the
TypeScript source (`middleware.ts`, `lib/api.ts`, `app/page.tsx`).  The
backend core (FactStore, DerivationEngine, VarianceBridgeCalculator,
ExportJobManager) is not part of the repository sources; where a claim is
decided by that code it is modelled from the spec, and the corresponding
definitions carry a `Modelled from the spec:` doc comment.
-/
namespace FinanceHub
/-- `String.prototype.startsWith`, modelled on the character list. -/
def strStartsWith (s pre : String) : Bool := pre.data.isPrefixOf s.data
/-! ## Roles (src/frontend/middleware.ts, src/frontend/lib/api.ts, part_004)

`VALID_ROLES = new Set(["CFO", "CEO", "Director", "Shareholder", "CB"])`
appears identically in `middleware.ts` (line 5) and `lib/api.ts` (line 135);
`part_004` exports the same list as `VALID_ROLES` with `isValidRole`. -/
def VALID_ROLES : List String := ["CFO", "CEO", "Director", "Shareholder", "CB"]
/-- `isValidRole` from `src/unnamed/part_004`: true iff the string is one of
the five valid roles (the `!!role` null-guard is absorbed by modelling the
cookie as `Option String` at the call sites). -/
def isValidRole (role : String) : Bool := VALID_ROLES.contains role
/-! ## Middleware (src/frontend/middleware.ts) -/
/-- `isPublicPath` from `middleware.ts` lines 7-9. -/
def isPublicPath (pathname : String) : Bool :=
  strStartsWith pathname "/_next" || strStartsWith pathname "/favicon.ico" ||
    strStartsWith pathname "/role-select"
/-- Result of the middleware: pass the request through, redirect to
`/role-select` carrying the original pathname in the `next` query
parameter, or redirect to `/`. -/
inductive MwResult where
  | next : MwResult
  | redirectRoleSelect (nextParam : String) : MwResult
  | redirectHome : MwResult
deriving DecidableEq, Repr
/-- `middleware` from `middleware.ts` lines 11-27.  `cookie` is the value of
the `finance_hub_role` cookie (`none` when absent). -/
def middleware (pathname : String) (cookie : Option String) : MwResult :=
  if isPublicPath pathname then .next
  else
    match cookie with
    | none => .redirectRoleSelect pathname
    | some role =>
        if ¬ (VALID_ROLES.contains role) then .redirectRoleSelect pathname
        else if strStartsWith pathname "/roles" && role ≠ "CFO" then .redirectHome
        else .next
/-! ## API client role header (src/frontend/lib/api.ts, lines 131-197)

The module keeps a mutable `let activeRole = "CFO"` updated only by
`setApiRole`; `request` and `apiFetch` both pass their init through
`withRoleHeader`, which does `headers.set("X-User-Role", activeRole)`.
Headers are an association list; `set` replaces any existing entry with the
same name (the fetch `Headers` object is case-insensitive, but the header
name occurs with a single spelling here, so matching names verbatim is
faithful). -/
def initialActiveRole : String := "CFO"
/-- `setApiRole` from `api.ts` lines 147-151, as a transition on the
module-level `activeRole` state. -/
def setApiRole (role : String) (activeRole : String) : String :=
  if VALID_ROLES.contains role then role else activeRole
/-- `Headers.set name value`: replace any entry with the same name. -/
def headersSet (hs : List (String × String)) (name value : String) :
    List (String × String) :=
  (hs.filter (fun h => h.1 ≠ name)) ++ [(name, value)]
/-- `Headers.get name`. -/
def headersGet (hs : List (String × String)) (name : String) : Option String :=
  (hs.find? (fun h => h.1 = name)).map (·.2)
/-- `withRoleHeader` from `api.ts` lines 153-157: copies the caller's
headers and sets `X-User-Role` to the current `activeRole`. -/
def withRoleHeader (activeRole : String) (hs : List (String × String)) :
    List (String × String) :=
  headersSet hs "X-User-Role" activeRole
/-- Headers actually sent by `request` (`api.ts` lines 174-187): the
caller's init headers routed through `withRoleHeader`. -/
def requestHeaders (activeRole : String) (initHeaders : List (String × String)) :
    List (String × String) :=
  withRoleHeader activeRole initHeaders
/-- Headers actually sent by `apiFetch` (`api.ts` lines 189-197): identical
routing through `withRoleHeader`. -/
def apiFetchHeaders (activeRole : String) (initHeaders : List (String × String)) :
    List (String × String) :=
  withRoleHeader activeRole initHeaders
/-! ## Metric history (src/frontend/lib/api.ts, lines 327-352)

`getMetricHistory` first calls `getPeriods`; on failure it returns that
error.  Otherwise, for every period in the returned list it calls
`getRatios(entity, period, scenario)`; a failed ratios call contributes
`{period, value: null, lineage: null}`, a successful one extracts the
metric's value from `kpis` (else `ratios`) and its lineage from `lineage`
(else `sources`). -/
/-- Result shape of the api client: `{ok: true, data}` or
`{ok: false, error, message}`. -/
inductive ApiResult (α : Type) where
  | ok (data : α) : ApiResult α
  | err (error : String) (message : String) : ApiResult α
deriving DecidableEq, Repr
/-- Payload of `/periods` (`getPeriods`, `api.ts` lines 199-206). -/
structure PeriodsData where
  entity : Option String
  periods : List String
  latest_upload_id : Option String
  has_pack : Bool
deriving DecidableEq, Repr
/-- Payload of `/ratios` as read by `getMetricHistory`: `kpis` and `ratios`
map metric keys to records whose `value` field may be null; `lineage` and
`sources` map metric keys to opaque lineage payloads. -/
structure RatiosData where
  kpis : List (String × Option ℚ)
  ratios : List (String × Option ℚ)
  lineage : List (String × String)
  sources : List (String × String)
deriving DecidableEq, Repr
/-- One element of the history returned by `getMetricHistory`. -/
structure HistEntry where
  period : String
  value : Option ℚ
  lineage : Option String
deriving DecidableEq, Repr
/-- JS property read `m[k]` on an object modelled as an association list:
`some` iff the key is present (the `k in m` test). -/
def objGet {α : Type} (m : List (String × α)) (k : String) : Option α :=
  (m.find? (fun e => e.1 = k)).map (·.2)
/-- Body of the `periods.map` callback in `getMetricHistory` (`api.ts`
lines 336-349), applied to the result of `getRatios` for one period. -/
def histEntry (metricKey period : String) (res : ApiResult RatiosData) :
    HistEntry :=
  match res with
  | .err _ _ => ⟨period, none, none⟩
  | .ok d =>
      let value : Option ℚ :=
        match objGet d.kpis metricKey with
        | some v => v
        | none =>
            match objGet d.ratios metricKey with
            | some v => v
            | none => none
      let lineage : Option String :=
        (objGet d.lineage metricKey).orElse (fun _ => objGet d.sources metricKey)
      ⟨period, value, lineage⟩
/-- `getMetricHistory` from `api.ts` lines 327-352, parameterised by the
responses of the collaborating endpoints: `periodsRes` is the result of
`getPeriods()` and `ratiosFor entity period scenario` the result of
`getRatios(entity, period, scenario)`. -/
def getMetricHistory (metricKey entity scenario : String)
    (periodsRes : ApiResult PeriodsData)
    (ratiosFor : String → String → String → ApiResult RatiosData) :
    ApiResult (List HistEntry) :=
  match periodsRes with
  | .err e m => .err e m
  | .ok pd =>
      .ok (pd.periods.map (fun period => histEntry metricKey period
        (ratiosFor entity period scenario)))
/-! ## Period list (src/frontend/app/page.tsx, lines 27-49 and 324-361)

`periodKey` finds the first occurrence of the regex
`/(jan|...|dec)[- ]?(\d{2,4})/i` in the label; the month letters match
case-insensitively, the separator is one optional `-` or space, and the
year is a greedy run of two to four ASCII digits.  A two-digit year is
mapped to `2000 + year` and the key is `year*100 + month`; a label with no
match yields 0.  `loadPeriods` sorts the server's period list ascending by
`periodKey` (JavaScript `Array.prototype.sort` is stable, and a stable
sort under a total comparator has a unique result, so insertion sort is a
faithful model) and initialises the selected period once, guarded by the
`periodInitialized` ref. -/
/-- ASCII lower-casing of one character, as the `/i` regex flag folds the
month letters. -/
def lowAscii (c : Char) : Char :=
  if 'A' ≤ c ∧ c ≤ 'Z' then Char.ofNat (c.toNat + 32) else c
/-- `MONTH_INDEX` from `page.tsx` lines 27-40. -/
def MONTH_INDEX : List (String × Nat) :=
  [("jan", 1), ("feb", 2), ("mar", 3), ("apr", 4), ("may", 5), ("jun", 6),
   ("jul", 7), ("aug", 8), ("sep", 9), ("oct", 10), ("nov", 11), ("dec", 12)]
/-- Case-insensitive three-letter month lookup (`MONTH_INDEX[...] || 0`):
the month's 1-based index, or 0 when the three characters are no month. -/
def monthIndex3 (c1 c2 c3 : Char) : Nat :=
  match MONTH_INDEX.find? (fun e => e.1.data = [lowAscii c1, lowAscii c2, lowAscii c3]) with
  | some e => e.2
  | none => 0
/-- `\d`: an ASCII digit. -/
def isDigitChar (c : Char) : Bool := 48 ≤ c.toNat && c.toNat ≤ 57
/-- Numeric value of an ASCII digit. -/
def digitVal (c : Char) : Nat := c.toNat - 48
/-- `parseInt(digits, 10)` on a non-empty ASCII digit string. -/
def parseDigits (ds : List Char) : Nat := ds.foldl (fun n c => n * 10 + digitVal c) 0
/-- One attempt of `/(jan|…|dec)[- ]?(\d{2,4})/i` at the head of the
character list: three month letters, an optional `-` or space (the greedy
`[- ]?`: when the separator is present the digits must follow it, since
backtracking to the empty alternative would place a non-digit first), then
a greedy run of two to four digits.  Returns `(month, year)` on success. -/
def matchMonthYearAt : List Char → Option (Nat × Nat)
  | c1 :: c2 :: c3 :: rest =>
      let m := monthIndex3 c1 c2 c3
      if m = 0 then none
      else
        let rest2 := match rest with
          | c :: tl => if c = '-' ∨ c = ' ' then tl else c :: tl
          | [] => []
        let ds := (rest2.takeWhile isDigitChar).take 4
        if ds.length ≥ 2 then some (m, parseDigits ds) else none
  | _ => none
/-- The regex engine's scan: try `matchMonthYearAt` at each successive
start position; on the first success apply the year fix-up and build
`year*100 + month` (`page.tsx` lines 42-49). -/
def periodKeyAux : List Char → Nat
  | [] => 0
  | c :: tl =>
      match matchMonthYearAt (c :: tl) with
      | some (m, y) => (if y < 100 then y + 2000 else y) * 100 + m
      | none => periodKeyAux tl
/-- `periodKey` from `page.tsx` lines 42-49. -/
def periodKey (label : String) : Nat := periodKeyAux label.data
/-- `[...periods].sort((a, b) => periodKey(a) - periodKey(b))`
(`page.tsx` line 333): stable ascending sort by `periodKey`. -/
def sortPeriods (ps : List String) : List String :=
  ps.insertionSort (fun a b => periodKey a ≤ periodKey b)
/-- The period `<select>` options after `loadPeriods` succeeds. -/
def loadPeriodsDisplay (ps : List String) : List String := sortPeriods ps
/-- The one-time selected-period initialisation (`page.tsx` lines 340-351):
prefer a truthy query param contained in the sorted list, else the last
element, else the empty string. -/
def initialPeriodSelection (sorted : List String) (qp : Option String) : String :=
  if 0 < sorted.length then
    match qp with
    | some q => if q ≠ "" ∧ q ∈ sorted then q else (sorted.getLast?).getD ""
    | none => (sorted.getLast?).getD ""
  else ""
/-- Selected period right after a successful `loadPeriods` on a fresh load
cycle. -/
def loadPeriodsSelected (ps : List String) (qp : Option String) : String :=
  initialPeriodSelection (sortPeriods ps) qp
/-- The `periodInitialized` ref guard (`page.tsx` lines 340-351): the
selection runs only when the flag is still false, and sets it. -/
def initPeriodStep (initialized : Bool) (sorted : List String) (qp : Option String) :
    Bool × Option String :=
  if initialized then (true, none)
  else (true, some (initialPeriodSelection sorted qp))
/-! ## FactStore (spec §3, §4.1, §8) — backend core, not under src/

The FastAPI backend holding the FactStore is not part of this repository's
sources (only the frontend client is), so the store is modelled from the
spec. -/
/-- Modelled from the spec: the `Fact` record of §3 —
`{entity, period, statement, line_item, value: number|null, sheet,
row_index, column, upload_id}` (the missing backend datatype). -/
structure Fact where
  entity : String
  period : String
  statement : String
  line_item : String
  value : Option ℚ
  sheet : String
  row_index : Nat
  column : String
  upload_id : String
deriving DecidableEq, Repr
/-- Modelled from the spec: `ValidationError` raised by `ingest` on a
duplicate `line_item` within the same upload (§4.1, §6). -/
inductive ValidationError where
  | duplicateLineItem : ValidationError
deriving DecidableEq, Repr
/-- Modelled from the spec: the process-wide store of immutable snapshots
per `(entity, period)` (§4.1); the missing backend FactStore.  Snapshots
are published by prepending, so a lookup sees the newest complete snapshot
for a pair (latest-wins, never merged). -/
structure FactStore where
  snapshots : List ((String × String) × (Nat × List Fact))
  nextSnapshotId : Nat
deriving DecidableEq, Repr
/-- Modelled from the spec: `ingest(entity, period, facts) -> snapshot_id`
(§4.1) — validate the batch (a duplicate `line_item` within the upload is a
`ValidationError` and nothing is published), then publish all facts
together under a fresh snapshot id. -/
def ingest (s : FactStore) (entity period : String) (facts : List Fact) :
    Except ValidationError (FactStore × Nat) :=
  if (facts.map (fun f => f.line_item)).Nodup then
    .ok (⟨((entity, period), (s.nextSnapshotId, facts)) :: s.snapshots,
          s.nextSnapshotId + 1⟩, s.nextSnapshotId)
  else .error .duplicateLineItem
/-- Modelled from the spec: `snapshot(entity, period) -> opaque id` plus
the snapshot's facts — the newest published snapshot for the pair. -/
def snapshotOf (s : FactStore) (entity period : String) : Option (Nat × List Fact) :=
  (s.snapshots.find? (fun e => e.1 = (entity, period))).map (·.2)
/-- Modelled from the spec: `get(entity, period, line_item) -> Fact|None`
(§4.1), a point lookup in the current snapshot. -/
def get (s : FactStore) (entity period line_item : String) : Option Fact :=
  match snapshotOf s entity period with
  | none => none
  | some (_, facts) => facts.find? (fun f => f.line_item = line_item)
/-! ## VarianceBridgeCalculator (spec §4.4, §8) — backend core, not under src/

The calculator itself runs in the FastAPI backend and is absent from this
repository's sources; the frontend (`page.tsx` lines 723-724 and
1466-1485) only replays the items' running totals.  The calculator is
therefore modelled from the spec. -/
/-- Modelled from the spec: one driver's sub-metric evaluated at both
periods (§4.4 step 2) — the missing backend driver evaluation. -/
structure DriverEval where
  driver_key : String
  label : String
  value_from : Option ℚ
  value_to : Option ℚ
deriving DecidableEq, Repr
/-- Modelled from the spec: the `Variance Bridge Item` record of §3
(`evidence` is omitted — no claim mentions it). -/
structure VarianceBridgeItem where
  driver_key : String
  label : String
  delta : Option ℚ
  running_total : Option ℚ
  missing_inputs : Bool
deriving DecidableEq, Repr
/-- Modelled from the spec: §4.4 steps 2-3 — walk the drivers in their
canonical order carrying the running total: a driver with both endpoint
values present contributes `delta = value_to - value_from` and advances the
running total; a driver missing either endpoint keeps the running total,
is marked `missing_inputs`, and stays at its position in the output. -/
def bridgeItemsAux (rt : ℚ) : List DriverEval → List VarianceBridgeItem
  | [] => []
  | d :: ds =>
      match d.value_from, d.value_to with
      | some a, some b =>
          ⟨d.driver_key, d.label, some (b - a), some (rt + (b - a)), false⟩ ::
            bridgeItemsAux (rt + (b - a)) ds
      | _, _ =>
          ⟨d.driver_key, d.label, none, some rt, true⟩ :: bridgeItemsAux rt ds
/-- Sum of optional values: `none` as soon as any input is `none`. -/
def addOption : Option ℚ → Option ℚ → Option ℚ
  | some x, some s => some (x + s)
  | _, _ => none
/-- Fold of `addOption` over a list. -/
def sumOptions : List (Option ℚ) → Option ℚ
  | [] => some 0
  | v :: vs => addOption v (sumOptions vs)
/-- Modelled from the spec: the result of
`bridge(target_metric_key, entity, period_from, period_to, scenario)`
(§4.4; `end` is a Lean keyword, hence `endVal`). -/
structure BridgeResult where
  start : Option ℚ
  endVal : Option ℚ
  items : List VarianceBridgeItem
deriving DecidableEq, Repr
/-- Modelled from the spec: §4.4 steps 1-3 with complete driver coverage —
the registry decomposes the target metric as the sum of its declared
drivers' sub-metrics (§4.4 step 4 calls incomplete coverage a registry
bug, and §8 asserts reconciliation on complete data), so the endpoint
evaluations `start`/`end` are the sums of the driver values at each
period.  The running total is seeded at `start.value` (0 when unknown,
as the frontend fallback at `page.tsx` line 724 does). -/
def bridge (drivers : List DriverEval) : BridgeResult :=
  let s := sumOptions (drivers.map (fun d => d.value_from))
  let e := sumOptions (drivers.map (fun d => d.value_to))
  ⟨s, e, bridgeItemsAux (s.getD 0) drivers⟩
/-- One step of the running-total fold: a non-null delta advances the
total, a null delta keeps it. -/
def advance (acc : ℚ) (it : VarianceBridgeItem) : ℚ :=
  match it.delta with
  | some d => acc + d
  | none => acc
/-- The running total after folding a list of bridge items. -/
def runningAfter (rt : ℚ) (items : List VarianceBridgeItem) : ℚ :=
  items.foldl advance rt
/-! ## ExportJobManager (spec §3, §4.5, §8) — backend core, not under src/

The job manager runs in the FastAPI backend (the frontend only creates,
polls and downloads jobs through `api.ts` lines 296-325), so the job state
machine and the download operation are modelled from the spec. -/
/-- Modelled from the spec: the export job statuses of §4.5,
`Queued → Running → {Completed, Failed}`. -/
inductive JobStatus where
  | queued : JobStatus
  | running : JobStatus
  | completed : JobStatus
  | failed : JobStatus
deriving DecidableEq, Repr
/-- Modelled from the spec: the `Export Job` record of §3 (`job_id` and the
timestamps are keyed/kept outside the record). -/
structure Job where
  status : JobStatus
  progress : Nat
  error : Option String
  artifact : Option (List Nat)
deriving DecidableEq, Repr
/-- A status from which no further transition is allowed. -/
def terminalStatus (s : JobStatus) : Bool := s == .completed || s == .failed
/-- Modelled from the spec: one observable evolution step of a persisted
job record (§4.5) — unchanged between observations, queued picked up by a
worker, monotone progress while running, completion with an artifact, or
failure (worker error or reaper timeout) from any non-terminal state with
an error message.  Terminal states admit no change. -/
def jobStep (a b : Job) : Bool :=
  (a == b) ||
  (a.status == .queued && b.status == .running) ||
  (a.status == .running && b.status == .running && decide (a.progress ≤ b.progress)) ||
  (a.status == .running && b.status == .completed && b.artifact.isSome) ||
  (!(terminalStatus a.status) && b.status == .failed && b.error.isSome)
/-- Modelled from the spec: `status(job_id) -> JobView
{status, progress, error, download_ready}` (§4.5); `download_ready` is
true exactly for completed jobs. -/
structure JobView where
  status : JobStatus
  progress : Nat
  error : Option String
  download_ready : Bool
deriving DecidableEq, Repr
/-- The view served by polling. -/
def statusView (j : Job) : JobView :=
  ⟨j.status, j.progress, j.error, j.status == .completed⟩
/-- Position of a status along `Queued, Running, {Completed|Failed}`. -/
def statusRank : JobStatus → Nat
  | .queued => 0
  | .running => 1
  | .completed => 2
  | .failed => 2
/-- Modelled from the spec: the outcome of
`download(job_id) -> artifact|NotReadyError|NotFoundError` (§4.5, §6). -/
inductive DownloadResult where
  | artifact (bytes : List Nat) : DownloadResult
  | notReady : DownloadResult
  | notFound : DownloadResult
deriving DecidableEq, Repr
/-- Modelled from the spec: the download operation over the job table —
unknown id is `NotFoundError`, a non-completed job is `NotReadyError`, a
completed job yields its artifact bytes. -/
def download (table : List (String × Job)) (job_id : String) : DownloadResult :=
  match (table.find? (fun e => e.1 = job_id)).map (·.2) with
  | none => .notFound
  | some j =>
      if j.status = .completed then .artifact (j.artifact.getD []) else .notReady
/-! ## DerivationRegistry / DerivationEngine (spec §4.2, §8) — backend core,
not under src/

The engine runs in the FastAPI backend; it is modelled from the spec:
metric definitions over fact/metric references, depth-first evaluation in
declared order with `null` contributions recorded in lineage, and a cache
keyed by `(key, entity, period, scenario, formula_version, snapshot_id)`
whose hit returns the stored value and lineage. -/
/-- Modelled from the spec: an element of a metric definition's
`input_keys` — a Fact or Metric reference (§3). -/
inductive InputRef where
  | factRef (line_item : String) : InputRef
  | metricRef (key : String) : InputRef
deriving DecidableEq, Repr
/-- Modelled from the spec: the `Metric Definition` record of §3 with its
pure `compute` function. -/
structure MetricDefinition where
  key : String
  formula_version : Nat
  input_keys : List InputRef
  compute : List (Option ℚ) → Option ℚ
/-- Modelled from the spec: the recursive `Lineage` structure of §3 — a
`primary` leaf at one Fact, a `composite` node with possibly-`null`
children in input order, or `missing`. -/
inductive Lineage where
  | primary (f : Fact) : Lineage
  | composite (children : List (Option Lineage)) : Lineage
  | missing : Lineage
/-- Modelled from the spec: depth-first evaluation of a metric against a
snapshot (§4.2) — inputs are evaluated in declared order, a missing leaf
fact contributes `null` recorded at its lineage position, and the
definition's `compute` combines the input values.  The registry is a DAG
(§3), so evaluation terminates; the fuel bounds the recursion depth and is
chosen at least the registry size by callers. -/
def evalMetric (reg : List MetricDefinition) (snap : List Fact) :
    Nat → String → Option ℚ × Lineage
  | 0, _ => (none, .missing)
  | fuel + 1, key =>
      match reg.find? (fun d => d.key = key) with
      | none => (none, .missing)
      | some d =>
          let inputs := d.input_keys.map (fun r =>
            match r with
            | .factRef li =>
                match snap.find? (fun f : Fact => f.line_item = li) with
                | some f => (f.value, some (Lineage.primary f))
                | none => ((none : Option ℚ), (none : Option Lineage))
            | .metricRef k =>
                let r := evalMetric reg snap fuel k
                (r.1, some r.2))
          (d.compute (inputs.map (·.1)), .composite (inputs.map (·.2)))
/-- Modelled from the spec: the cache key
`(key, entity, period, scenario, formula_version, snapshot_id)` (§4.2). -/
structure CacheKey where
  key : String
  entity : String
  period : String
  scenario : String
  formula_version : Nat
  snapshot_id : Nat
deriving DecidableEq, Repr
/-- Modelled from the spec: read-through-or-compute evaluation (§4.2, §5)
— a cache hit returns the stored value and lineage, a miss computes via
`evalMetric` and stores the result under the key. -/
def evalCached (reg : List MetricDefinition) (snap : List Fact) (fuel : Nat)
    (cache : List (CacheKey × (Option ℚ × Lineage))) (ck : CacheKey) :
    (Option ℚ × Lineage) × List (CacheKey × (Option ℚ × Lineage)) :=
  match cache.find? (fun e => e.1 = ck) with
  | some e => (e.2, cache)
  | none =>
      let r := evalMetric reg snap fuel ck.key
      (r, (ck, r) :: cache)
/-- Setting a header then reading it back returns the value just set. -/
theorem headersGet_headersSet (hs : List (String × String)) (name value : String) :
    headersGet (headersSet hs name value) name = some value := by
  unfold headersGet headersSet
  rw [List.find?_append, List.find?_eq_none.mpr]
  · simp
  · intro h hmem
    simp only [List.mem_filter, decide_eq_true_eq] at hmem
    simp [hmem.2]
/-- **C8** — Middleware role gating: for every request whose path is not
public (does not start with `/_next`, `/favicon.ico` or `/role-select`),
an absent or invalid `finance_hub_role` cookie redirects to `/role-select`
with the original pathname in the `next` query parameter; a valid role
other than `CFO` on a path starting with `/roles` redirects to `/`; in all
other cases the request passes through. -/
theorem middleware_role_gating (pathname : String) (cookie : Option String)
    (hpub : isPublicPath pathname = false) :
    ((cookie = none ∨ ∀ r, cookie = some r → r ∉ VALID_ROLES) →
        middleware pathname cookie = .redirectRoleSelect pathname) ∧
    (∀ r, cookie = some r → r ∈ VALID_ROLES → r ≠ "CFO" →
        strStartsWith pathname "/roles" = true →
        middleware pathname cookie = .redirectHome) ∧
    (∀ r, cookie = some r → r ∈ VALID_ROLES →
        (r = "CFO" ∨ strStartsWith pathname "/roles" = false) →
        middleware pathname cookie = .next) := by
  refine ⟨?_, ?_, ?_⟩
  · intro h
    cases cookie with
    | none => simp [middleware, hpub]
    | some r =>
        rcases h with h | h
        · exact absurd h (by simp)
        · have hr := h r rfl
          simp [middleware, hpub, hr]
  · intro r hr hvalid hcfo hroles
    subst hr
    simp [middleware, hpub, hvalid, hroles, hcfo]
  · intro r hr hvalid hother
    subst hr
    rcases hother with h | h
    · subst h
      simp [middleware, hpub, hvalid]
    · simp [middleware, hpub, hvalid, h]
/-- Witness for C8: concrete non-public path `/dashboard`; missing cookie
redirects to role-select, a `CEO` cookie on `/roles` redirects home, a
`CEO` cookie on `/dashboard` passes through. -/
theorem middleware_role_gating_witness :
    middleware "/dashboard" none = .redirectRoleSelect "/dashboard" ∧
    middleware "/roles/admin" (some "CEO") = .redirectHome ∧
    middleware "/dashboard" (some "CEO") = .next := by
  refine ⟨?_, ?_, ?_⟩
  · exact (middleware_role_gating "/dashboard" none (by decide)).1
      (Or.inl rfl)
  · exact (middleware_role_gating "/roles/admin" (some "CEO") (by decide)).2.1
      "CEO" rfl (by decide) (by decide) (by decide)
  · exact (middleware_role_gating "/dashboard" (some "CEO") (by decide)).2.2
      "CEO" rfl (by decide) (Or.inr (by decide))
/-- **C9** — Role header invariant: every request issued through `request`
or `apiFetch` carries an `X-User-Role` header equal to the current active
role; the active role starts as `"CFO"`, and `setApiRole` changes it only
for one of the five valid roles, leaving it unchanged otherwise. -/
theorem role_header_invariant (activeRole : String)
    (initHeaders : List (String × String)) (role : String) :
    headersGet (requestHeaders activeRole initHeaders) "X-User-Role"
        = some activeRole ∧
    headersGet (apiFetchHeaders activeRole initHeaders) "X-User-Role"
        = some activeRole ∧
    initialActiveRole = "CFO" ∧
    (role ∈ VALID_ROLES → setApiRole role activeRole = role) ∧
    (role ∉ VALID_ROLES → setApiRole role activeRole = activeRole) := by
  refine ⟨?_, ?_, rfl, ?_, ?_⟩
  · exact headersGet_headersSet initHeaders "X-User-Role" activeRole
  · exact headersGet_headersSet initHeaders "X-User-Role" activeRole
  · intro h; simp [setApiRole, h]
  · intro h; simp [setApiRole, h]
/-- Witness for C9: with active role `"CFO"` and empty init headers, the
sent header is `X-User-Role: CFO`; `setApiRole "CEO"` switches the role
while `setApiRole "Boss"` leaves it unchanged. -/
theorem role_header_invariant_witness :
    headersGet (requestHeaders "CFO" []) "X-User-Role" = some "CFO" ∧
    setApiRole "CEO" "CFO" = "CEO" ∧
    setApiRole "Boss" "CFO" = "CFO" :=
  ⟨(role_header_invariant "CFO" [] "CEO").1,
   (role_header_invariant "CFO" [] "CEO").2.2.2.1 (by decide),
   (role_header_invariant "CFO" [] "Boss").2.2.2.2 (by decide)⟩
/-- The entry built for a period always records that period. -/
theorem histEntry_period (metricKey period : String)
    (res : ApiResult RatiosData) : (histEntry metricKey period res).period = period := by
  cases res <;> rfl
/-- **C7** — Per-metric failure isolation in `getMetricHistory`: when
`getPeriods` fails the whole call returns that error; when it succeeds the
call returns `ok` with exactly one entry per period in order, a period
whose ratios request fails contributing `{period, value: null,
lineage: null}` rather than an error. -/
theorem metric_history_isolation (metricKey entity scenario : String)
    (periodsRes : ApiResult PeriodsData)
    (ratiosFor : String → String → String → ApiResult RatiosData) :
    (∀ e m, periodsRes = .err e m →
        getMetricHistory metricKey entity scenario periodsRes ratiosFor = .err e m) ∧
    (∀ pd, periodsRes = .ok pd →
        ∃ entries, getMetricHistory metricKey entity scenario periodsRes ratiosFor
            = .ok entries ∧
          entries.length = pd.periods.length ∧
          (∀ i, i < pd.periods.length → ∀ p, pd.periods.get? i = some p →
            entries.get? i = some (histEntry metricKey p (ratiosFor entity p scenario)) ∧
            (histEntry metricKey p (ratiosFor entity p scenario)).period = p ∧
            (∀ e m, ratiosFor entity p scenario = .err e m →
              entries.get? i = some ⟨p, none, none⟩))) := by
  constructor
  · intro e m h; subst h; rfl
  · intro pd h; subst h
    refine ⟨_, rfl, by simp [getMetricHistory], ?_⟩
    intro i hi p hp
    rw [List.get?_eq_getElem?] at hp
    refine ⟨?_, histEntry_period .., ?_⟩
    · rw [List.get?_eq_getElem?]
      simp [getMetricHistory, List.getElem?_map, hp]
    · intro e m herr
      rw [List.get?_eq_getElem?]
      simp [getMetricHistory, List.getElem?_map, hp, histEntry, herr]
/-- Witness for C7: two periods, the ratios call failing for the second;
the history is `ok` with the computed value for the first period and a
`{period, null, null}` placeholder for the failing one. -/
theorem metric_history_isolation_witness :
    (ApiResult.ok (α := PeriodsData) ⟨none, ["Jan-24", "Feb-24"], none, true⟩
        = ApiResult.ok ⟨none, ["Jan-24", "Feb-24"], none, true⟩) ∧
    ∃ entries,
      getMetricHistory "net_profit" "BankX" "Actual"
          (.ok ⟨none, ["Jan-24", "Feb-24"], none, true⟩)
          (fun _ p _ => if p = "Jan-24"
            then .ok ⟨[("net_profit", some 5)], [], [], []⟩
            else .err "HTTP_ERROR" "boom") = .ok entries ∧
      entries.length = 2 ∧
      entries.get? 1 = some ⟨"Feb-24", none, none⟩ := by
  refine ⟨rfl, ?_⟩
  obtain ⟨entries, hok, hlen, hidx⟩ :=
    (metric_history_isolation "net_profit" "BankX" "Actual"
      (.ok ⟨none, ["Jan-24", "Feb-24"], none, true⟩)
      (fun _ p _ => if p = "Jan-24"
        then .ok ⟨[("net_profit", some 5)], [], [], []⟩
        else .err "HTTP_ERROR" "boom")).2
      ⟨none, ["Jan-24", "Feb-24"], none, true⟩ rfl
  refine ⟨entries, hok, hlen, ?_⟩
  exact (hidx 1 (by decide) "Feb-24" rfl).2.2 "HTTP_ERROR" "boom" (by decide)
/-- A digit character's value is at most 9. -/
theorem digitVal_le_nine {c : Char} (h : isDigitChar c = true) : digitVal c ≤ 9 := by
  simp only [isDigitChar, Bool.and_eq_true, decide_eq_true_eq] at h
  unfold digitVal
  omega
/-- `takeWhile` of a predicate false on every element is empty. -/
theorem takeWhile_eq_nil_of_all_false {p : Char → Bool} {l : List Char}
    (h : ∀ c ∈ l, p c = false) : l.takeWhile p = [] := by
  cases l with
  | nil => rfl
  | cons c tl => simp [List.takeWhile_cons, h c (by simp)]
/-- The month-year pattern never matches a character list without digits. -/
theorem matchMonthYearAt_eq_none_of_no_digit {cs : List Char}
    (h : ∀ c ∈ cs, isDigitChar c = false) : matchMonthYearAt cs = none := by
  match cs with
  | [] => rfl
  | [c1] => rfl
  | [c1, c2] => rfl
  | c1 :: c2 :: c3 :: rest =>
      unfold matchMonthYearAt
      by_cases hm : monthIndex3 c1 c2 c3 = 0
      · simp [hm]
      · have hrest : ∀ c ∈ rest, isDigitChar c = false := by
          intro c hc; exact h c (by simp [hc])
        simp only [hm, if_false]
        match rest, hrest with
        | [], _ => simp
        | c :: tl, hrest =>
            have htl : ∀ x ∈ tl, isDigitChar x = false := by
              intro x hx; exact hrest x (by simp [hx])
            by_cases hsep : c = '-' ∨ c = ' '
            · simp [hsep, takeWhile_eq_nil_of_all_false htl]
            · simp [hsep, List.takeWhile_cons, hrest c (by simp)]
/-- A label without digit characters gets period key 0. -/
theorem periodKeyAux_eq_zero_of_no_digit {cs : List Char}
    (h : ∀ c ∈ cs, isDigitChar c = false) : periodKeyAux cs = 0 := by
  induction cs with
  | nil => rfl
  | cons c tl ih =>
      unfold periodKeyAux
      rw [matchMonthYearAt_eq_none_of_no_digit h]
      exact ih (fun x hx => h x (by simp [hx]))
/-- The key of a canonical `mon-DD` label: month letters, a dash, two
digits. -/
theorem periodKey_canonical (m1 m2 m3 d1 d2 : Char) (mo : Nat)
    (hm : monthIndex3 m1 m2 m3 = mo) (hmo : mo ≠ 0)
    (hd1 : isDigitChar d1 = true) (hd2 : isDigitChar d2 = true) :
    periodKey ⟨[m1, m2, m3, '-', d1, d2]⟩
      = (2000 + (digitVal d1 * 10 + digitVal d2)) * 100 + mo := by
  have h1 := digitVal_le_nine hd1
  have h2 := digitVal_le_nine hd2
  have hy : digitVal d1 * 10 + digitVal d2 < 100 := by omega
  unfold periodKey periodKeyAux matchMonthYearAt
  simp [hm, hmo, List.takeWhile_cons, hd1, hd2, parseDigits, hy]
  ring
/-- **C10 (amended)** — Period-list initialization: on success the
displayed list is the server's list sorted ascending by `periodKey`
(a `mon-DD` month-year label maps to `(2000 + DD)*100 + month`, a label
with no digits maps to 0); the selected period is initialized exactly once
per load cycle — to the period query parameter when it is non-empty and
occurs in the sorted list, otherwise to the last element, or left empty
when the list is empty. -/
theorem period_list_initialization (ps : List String) (qp : Option String) :
    (loadPeriodsDisplay ps).Perm ps ∧
    List.Sorted (fun a b => periodKey a ≤ periodKey b) (loadPeriodsDisplay ps) ∧
    (loadPeriodsDisplay ps = [] → loadPeriodsSelected ps qp = "") ∧
    (∀ q, qp = some q → q ≠ "" → q ∈ loadPeriodsDisplay ps →
        loadPeriodsSelected ps qp = q) ∧
    (∀ h : loadPeriodsDisplay ps ≠ [],
        (qp = none ∨ ∀ q, qp = some q → q = "" ∨ q ∉ loadPeriodsDisplay ps) →
        loadPeriodsSelected ps qp = (loadPeriodsDisplay ps).getLast h) ∧
    (∀ s q2, initPeriodStep false s q2 = (true, some (initialPeriodSelection s q2))) ∧
    (∀ s q2, initPeriodStep true s q2 = (true, none)) ∧
    (∀ m1 m2 m3 d1 d2 mo, monthIndex3 m1 m2 m3 = mo → mo ≠ 0 →
        isDigitChar d1 = true → isDigitChar d2 = true →
        periodKey ⟨[m1, m2, m3, '-', d1, d2]⟩
          = (2000 + (digitVal d1 * 10 + digitVal d2)) * 100 + mo) ∧
    (∀ label : String, (∀ c ∈ label.data, isDigitChar c = false) →
        periodKey label = 0) := by
  have hperm : (loadPeriodsDisplay ps).Perm ps := List.perm_insertionSort _ ps
  refine ⟨hperm, ?_, ?_, ?_, ?_, fun s q2 => rfl, fun s q2 => rfl,
    periodKey_canonical, fun label h => periodKeyAux_eq_zero_of_no_digit h⟩
  · haveI : IsTotal String (fun a b => periodKey a ≤ periodKey b) :=
      ⟨fun a b => Nat.le_total _ _⟩
    haveI : IsTrans String (fun a b => periodKey a ≤ periodKey b) :=
      ⟨fun a b c => Nat.le_trans⟩
    exact List.sorted_insertionSort _ ps
  · intro hnil
    unfold loadPeriodsSelected initialPeriodSelection
    unfold loadPeriodsDisplay at hnil
    simp [hnil]
  · intro q hq hne hmem
    subst hq
    unfold loadPeriodsSelected initialPeriodSelection
    unfold loadPeriodsDisplay at hmem
    have hpos : 0 < (sortPeriods ps).length := List.length_pos.mpr (by
      intro hcon; rw [hcon] at hmem; exact absurd hmem (List.not_mem_nil q))
    simp only [hpos, if_true]
    simp [hne, hmem]
  · intro h hother
    unfold loadPeriodsSelected initialPeriodSelection
    unfold loadPeriodsDisplay at h ⊢
    have hpos : 0 < (sortPeriods ps).length := List.length_pos.mpr h
    simp only [hpos, if_true]
    rcases hother with hq | hq
    · subst hq
      rw [List.getLast?_eq_getLast _ h]
      rfl
    · cases qp with
      | none =>
          rw [List.getLast?_eq_getLast _ h]
          rfl
      | some q =>
          rcases hq q rfl with hq | hq
          · subst hq
            show (if ("" : String) ≠ "" ∧ "" ∈ sortPeriods ps then ""
              else (sortPeriods ps).getLast?.getD "") = (sortPeriods ps).getLast h
            rw [if_neg (by simp), List.getLast?_eq_getLast _ h]
            rfl
          · have hno : ¬ (q ≠ "" ∧ q ∈ sortPeriods ps) := fun hcon => hq hcon.2
            show (if q ≠ "" ∧ q ∈ sortPeriods ps then q
              else (sortPeriods ps).getLast?.getD "") = (sortPeriods ps).getLast h
            rw [if_neg hno, List.getLast?_eq_getLast _ h]
            rfl
/-- Witness for C10: server list `["Feb-24", "Jan-24"]` with query param
`Jan-24`, which is non-empty and occurs in the sorted list, so it is
selected. -/
theorem period_list_initialization_witness :
    loadPeriodsSelected ["Feb-24", "Jan-24"] (some "Jan-24") = "Jan-24" ∧
    ("Jan-24" : String) ≠ "" ∧
    "Jan-24" ∈ loadPeriodsDisplay ["Feb-24", "Jan-24"] :=
  ⟨(period_list_initialization ["Feb-24", "Jan-24"] (some "Jan-24")).2.2.2.1
      "Jan-24" rfl (by decide) (by decide),
   by decide, by decide⟩
/-- Counterexample to C10 as frozen: with server list `["Jan-24", ""]` and
period query parameter `""`, the empty string occurs in the sorted list,
yet the code's truthiness guard (`initialQueryPeriod && …`) discards the
parameter and selects the last element `Jan-24` instead. -/
theorem period_init_query_param_counterexample :
    ("" : String) ∈ loadPeriodsDisplay ["Jan-24", ""] ∧
    loadPeriodsSelected ["Jan-24", ""] (some "") ≠ "" ∧
    loadPeriodsSelected ["Jan-24", ""] (some "") = "Jan-24" := by decide
/-- In a batch with no duplicate line items, looking up a member fact's
line item finds exactly that fact. -/
theorem find?_eq_self_of_nodup_key {facts : List Fact} {f : Fact}
    (hnd : (facts.map (fun g => g.line_item)).Nodup) (hmem : f ∈ facts) :
    facts.find? (fun g => g.line_item = f.line_item) = some f := by
  induction facts with
  | nil => exact absurd hmem (List.not_mem_nil f)
  | cons g t ih =>
      rw [List.map_cons, List.nodup_cons] at hnd
      by_cases hg : g.line_item = f.line_item
      · have : f = g := by
          rcases List.mem_cons.mp hmem with h | h
          · exact h
          · exact absurd (hg ▸ List.mem_map_of_mem (fun x => x.line_item) h) hnd.1
        subst this
        simp [List.find?_cons, hg]
      · have hf : f ∈ t := by
          rcases List.mem_cons.mp hmem with h | h
          · exact absurd (h ▸ rfl) hg
          · exact h
        have hdg : (decide (g.line_item = f.line_item)) = false := by
          simp [hg]
        rw [List.find?_cons, hdg]
        exact ih hnd.2 hf
/-- **C4** — Atomic ingestion with snapshot visibility: a batch with a
duplicate `line_item` raises `ValidationError` (and no store is produced,
so the caller's store is unchanged); a valid batch is published atomically
under a fresh snapshot id, after which `get` returns each ingested fact,
and everything `get` returns for that `(entity, period)` belongs to the
new batch — never a mixture with a prior batch. -/
theorem ingest_atomic_snapshot_visibility (s : FactStore) (entity period : String)
    (facts : List Fact) :
    (¬ (facts.map (fun f => f.line_item)).Nodup →
        ingest s entity period facts = .error .duplicateLineItem) ∧
    ((facts.map (fun f => f.line_item)).Nodup →
        ∃ s2, ingest s entity period facts = .ok (s2, s.nextSnapshotId) ∧
          snapshotOf s2 entity period = some (s.nextSnapshotId, facts) ∧
          (∀ f ∈ facts, get s2 entity period f.line_item = some f) ∧
          (∀ li f, get s2 entity period li = some f → f ∈ facts)) := by
  constructor
  · intro h
    simp [ingest, h]
  · intro h
    refine ⟨⟨((entity, period), (s.nextSnapshotId, facts)) :: s.snapshots,
      s.nextSnapshotId + 1⟩, by simp [ingest, h], ?_, ?_, ?_⟩
    · simp [snapshotOf, List.find?_cons]
    · intro f hf
      have hsnap : snapshotOf
          (⟨((entity, period), (s.nextSnapshotId, facts)) :: s.snapshots,
            s.nextSnapshotId + 1⟩ : FactStore) entity period
          = some (s.nextSnapshotId, facts) := by
        simp [snapshotOf, List.find?_cons]
      simp only [get, hsnap]
      exact find?_eq_self_of_nodup_key h hf
    · intro li f hget
      have hsnap : snapshotOf
          (⟨((entity, period), (s.nextSnapshotId, facts)) :: s.snapshots,
            s.nextSnapshotId + 1⟩ : FactStore) entity period
          = some (s.nextSnapshotId, facts) := by
        simp [snapshotOf, List.find?_cons]
      simp only [get, hsnap] at hget
      exact List.mem_of_find?_eq_some hget
/-- Witness for C4: a two-fact batch with distinct line items ingests into
the empty store and both facts are immediately visible; the same batch
with a duplicated line item is rejected. -/
theorem ingest_atomic_snapshot_visibility_witness :
    (∃ s2, ingest ⟨[], 0⟩ "BankX" "2024-01"
        [⟨"BankX", "2024-01", "BS", "total_assets", some 1000000, "BS", 12, "C", "u1"⟩,
         ⟨"BankX", "2024-01", "PL", "net_profit", some 500000, "PL", 40, "C", "u1"⟩]
        = .ok (s2, 0) ∧
      snapshotOf s2 "BankX" "2024-01" = some (0,
        [⟨"BankX", "2024-01", "BS", "total_assets", some 1000000, "BS", 12, "C", "u1"⟩,
         ⟨"BankX", "2024-01", "PL", "net_profit", some 500000, "PL", 40, "C", "u1"⟩]) ∧
      get s2 "BankX" "2024-01" "total_assets"
        = some ⟨"BankX", "2024-01", "BS", "total_assets", some 1000000, "BS", 12, "C", "u1"⟩) ∧
    ingest ⟨[], 0⟩ "BankX" "2024-01"
        [⟨"BankX", "2024-01", "BS", "total_assets", some 1000000, "BS", 12, "C", "u1"⟩,
         ⟨"BankX", "2024-01", "BS", "total_assets", some 900000, "BS", 13, "C", "u1"⟩]
        = .error .duplicateLineItem := by
  constructor
  · obtain ⟨s2, hok, hsnap, hall, hmix⟩ :=
      (ingest_atomic_snapshot_visibility ⟨[], 0⟩ "BankX" "2024-01"
        [⟨"BankX", "2024-01", "BS", "total_assets", some 1000000, "BS", 12, "C", "u1"⟩,
         ⟨"BankX", "2024-01", "PL", "net_profit", some 500000, "PL", 40, "C", "u1"⟩]).2
      (by decide)
    exact ⟨s2, hok, hsnap,
      hall ⟨"BankX", "2024-01", "BS", "total_assets", some 1000000, "BS", 12, "C", "u1"⟩
        (by decide)⟩
  · exact (ingest_atomic_snapshot_visibility ⟨[], 0⟩ "BankX" "2024-01"
      [⟨"BankX", "2024-01", "BS", "total_assets", some 1000000, "BS", 12, "C", "u1"⟩,
       ⟨"BankX", "2024-01", "BS", "total_assets", some 900000, "BS", 13, "C", "u1"⟩]).1
      (by decide)
theorem bridgeItemsAux_length (rt : ℚ) (drivers : List DriverEval) :
    (bridgeItemsAux rt drivers).length = drivers.length := by
  induction drivers generalizing rt with
  | nil => rfl
  | cons d ds ih =>
      unfold bridgeItemsAux
      match hf : d.value_from, ht : d.value_to with
      | some a, some b => simp [ih]
      | none, _ => simp [ih]
      | some a, none => simp [ih]
theorem runningAfter_cons (rt : ℚ) (it : VarianceBridgeItem)
    (items : List VarianceBridgeItem) :
    runningAfter rt (it :: items) = runningAfter (advance rt it) items := rfl
/-- Per-index description of the bridge items produced from a seed `rt`. -/
theorem bridgeItemsAux_fold (rt : ℚ) (drivers : List DriverEval) :
    ∀ i d, drivers.get? i = some d →
      ∃ it, (bridgeItemsAux rt drivers).get? i = some it ∧
        it.driver_key = d.driver_key ∧ it.label = d.label ∧
        (∀ a b, d.value_from = some a → d.value_to = some b →
          it.delta = some (b - a) ∧
          it.running_total
            = some (runningAfter rt ((bridgeItemsAux rt drivers).take i) + (b - a)) ∧
          it.missing_inputs = false) ∧
        ((d.value_from = none ∨ d.value_to = none) →
          it.delta = none ∧
          it.running_total = some (runningAfter rt ((bridgeItemsAux rt drivers).take i)) ∧
          it.missing_inputs = true) := by
  induction drivers generalizing rt with
  | nil => intro i d h; simp at h
  | cons d0 ds ih =>
      intro i d h
      match i with
      | 0 =>
          simp only [List.get?_cons_zero, Option.some_inj] at h
          subst h
          match hf : d0.value_from, ht : d0.value_to with
          | some a, some b =>
              have hcons : bridgeItemsAux rt (d0 :: ds)
                  = ⟨d0.driver_key, d0.label, some (b - a), some (rt + (b - a)), false⟩ ::
                    bridgeItemsAux (rt + (b - a)) ds := by
                simp [bridgeItemsAux, hf, ht]
              refine ⟨⟨d0.driver_key, d0.label, some (b - a), some (rt + (b - a)), false⟩,
                by rw [hcons]; rfl, rfl, rfl, ?_, ?_⟩
              · intro x y hx hy
                cases hx; cases hy
                rw [hcons]
                exact ⟨rfl, rfl, rfl⟩
              · intro hcon
                rcases hcon with hc | hc <;> exact Option.noConfusion hc
          | none, _ =>
              have hcons : bridgeItemsAux rt (d0 :: ds)
                  = ⟨d0.driver_key, d0.label, none, some rt, true⟩ ::
                    bridgeItemsAux rt ds := by
                simp [bridgeItemsAux, hf]
              refine ⟨⟨d0.driver_key, d0.label, none, some rt, true⟩,
                by rw [hcons]; rfl, rfl, rfl, ?_, ?_⟩
              · intro x y hx hy
                exact Option.noConfusion hx
              · intro hcon
                rw [hcons]
                exact ⟨rfl, rfl, rfl⟩
          | some a, none =>
              have hcons : bridgeItemsAux rt (d0 :: ds)
                  = ⟨d0.driver_key, d0.label, none, some rt, true⟩ ::
                    bridgeItemsAux rt ds := by
                simp [bridgeItemsAux, hf, ht]
              refine ⟨⟨d0.driver_key, d0.label, none, some rt, true⟩,
                by rw [hcons]; rfl, rfl, rfl, ?_, ?_⟩
              · intro x y hx hy
                exact Option.noConfusion hy
              · intro hcon
                rw [hcons]
                exact ⟨rfl, rfl, rfl⟩
      | Nat.succ n =>
          simp only [List.get?_cons_succ] at h
          match hf : d0.value_from, ht : d0.value_to with
          | some a, some b =>
              have hcons : bridgeItemsAux rt (d0 :: ds)
                  = ⟨d0.driver_key, d0.label, some (b - a), some (rt + (b - a)), false⟩ ::
                    bridgeItemsAux (rt + (b - a)) ds := by
                simp [bridgeItemsAux, hf, ht]
              obtain ⟨it, hit, h1, h2, h3, h4⟩ := ih (rt + (b - a)) n d h
              refine ⟨it, by rw [hcons, List.get?_cons_succ]; exact hit, h1, h2, ?_, ?_⟩
              · intro x y hx hy
                obtain ⟨e1, e2, e3⟩ := h3 x y hx hy
                refine ⟨e1, ?_, e3⟩
                rw [e2, hcons, List.take_succ_cons, runningAfter_cons]
                rfl
              · intro hcon
                obtain ⟨e1, e2, e3⟩ := h4 hcon
                refine ⟨e1, ?_, e3⟩
                rw [e2, hcons, List.take_succ_cons, runningAfter_cons]
                rfl
          | none, _ =>
              have hcons : bridgeItemsAux rt (d0 :: ds)
                  = ⟨d0.driver_key, d0.label, none, some rt, true⟩ ::
                    bridgeItemsAux rt ds := by
                simp [bridgeItemsAux, hf]
              obtain ⟨it, hit, h1, h2, h3, h4⟩ := ih rt n d h
              refine ⟨it, by rw [hcons, List.get?_cons_succ]; exact hit, h1, h2, ?_, ?_⟩
              · intro x y hx hy
                obtain ⟨e1, e2, e3⟩ := h3 x y hx hy
                refine ⟨e1, ?_, e3⟩
                rw [e2, hcons, List.take_succ_cons, runningAfter_cons]
                rfl
              · intro hcon
                obtain ⟨e1, e2, e3⟩ := h4 hcon
                refine ⟨e1, ?_, e3⟩
                rw [e2, hcons, List.take_succ_cons, runningAfter_cons]
                rfl
          | some a, none =>
              have hcons : bridgeItemsAux rt (d0 :: ds)
                  = ⟨d0.driver_key, d0.label, none, some rt, true⟩ ::
                    bridgeItemsAux rt ds := by
                simp [bridgeItemsAux, hf, ht]
              obtain ⟨it, hit, h1, h2, h3, h4⟩ := ih rt n d h
              refine ⟨it, by rw [hcons, List.get?_cons_succ]; exact hit, h1, h2, ?_, ?_⟩
              · intro x y hx hy
                obtain ⟨e1, e2, e3⟩ := h3 x y hx hy
                refine ⟨e1, ?_, e3⟩
                rw [e2, hcons, List.take_succ_cons, runningAfter_cons]
                rfl
              · intro hcon
                obtain ⟨e1, e2, e3⟩ := h4 hcon
                refine ⟨e1, ?_, e3⟩
                rw [e2, hcons, List.take_succ_cons, runningAfter_cons]
                rfl
theorem runningAfter_eq_sum (rt : ℚ) (items : List VarianceBridgeItem) :
    runningAfter rt items = rt + (items.map (fun it => it.delta.getD 0)).sum := by
  induction items generalizing rt with
  | nil => simp [runningAfter]
  | cons it items ih =>
      rw [runningAfter_cons, ih]
      cases hd : it.delta with
      | none => simp [advance, hd]
      | some d => simp [advance, hd]; ring
theorem sumOptions_complete (vs : List (Option ℚ)) (h : ∀ v ∈ vs, v.isSome) :
    sumOptions vs = some ((vs.map (fun v => v.getD 0)).sum) := by
  induction vs with
  | nil => simp [sumOptions]
  | cons v t ih =>
      obtain ⟨x, hx⟩ := Option.isSome_iff_exists.mp (h v (by simp))
      unfold sumOptions
      rw [hx, ih (fun w hw => h w (by simp [hw]))]
      simp [addOption, hx]
theorem bridgeItemsAux_delta_sum (rt : ℚ) (drivers : List DriverEval)
    (hall : ∀ d ∈ drivers, (d.value_from).isSome ∧ (d.value_to).isSome) :
    ((bridgeItemsAux rt drivers).map (fun it => it.delta.getD 0)).sum
      = (drivers.map (fun d => d.value_to.getD 0)).sum
        - (drivers.map (fun d => d.value_from.getD 0)).sum := by
  induction drivers generalizing rt with
  | nil => simp [bridgeItemsAux]
  | cons d0 ds ih =>
      obtain ⟨h1, h2⟩ := hall d0 (by simp)
      obtain ⟨a, ha⟩ := Option.isSome_iff_exists.mp h1
      obtain ⟨b, hb⟩ := Option.isSome_iff_exists.mp h2
      have hcons : bridgeItemsAux rt (d0 :: ds)
          = ⟨d0.driver_key, d0.label, some (b - a), some (rt + (b - a)), false⟩ ::
            bridgeItemsAux (rt + (b - a)) ds := by
        simp [bridgeItemsAux, ha, hb]
      rw [hcons]
      simp only [List.map_cons, List.sum_cons,
        ih (rt + (b - a)) (fun d hd => hall d (by simp [hd])), List.map_cons,
        List.sum_cons, ha, hb]
      simp
      ring
theorem bridgeItemsAux_complete_items (rt : ℚ) (drivers : List DriverEval)
    (hall : ∀ d ∈ drivers, (d.value_from).isSome ∧ (d.value_to).isSome) :
    ∀ it ∈ bridgeItemsAux rt drivers, it.missing_inputs = false ∧ it.delta.isSome := by
  induction drivers generalizing rt with
  | nil => intro it h; simp [bridgeItemsAux] at h
  | cons d0 ds ih =>
      obtain ⟨h1, h2⟩ := hall d0 (by simp)
      obtain ⟨a, ha⟩ := Option.isSome_iff_exists.mp h1
      obtain ⟨b, hb⟩ := Option.isSome_iff_exists.mp h2
      have hcons : bridgeItemsAux rt (d0 :: ds)
          = ⟨d0.driver_key, d0.label, some (b - a), some (rt + (b - a)), false⟩ ::
            bridgeItemsAux (rt + (b - a)) ds := by
        simp [bridgeItemsAux, ha, hb]
      intro it hit
      rw [hcons] at hit
      rcases List.mem_cons.mp hit with h | h
      · subst h; exact ⟨rfl, rfl⟩
      · exact ih (rt + (b - a)) (fun d hd => hall d (by simp [hd])) it h
theorem getLast?_cons_ne_nil {α : Type} (a : α) {l : List α} (h : l ≠ []) :
    (a :: l).getLast? = l.getLast? := by
  cases l with
  | nil => exact absurd rfl h
  | cons b t => exact List.getLast?_cons_cons
/-- The last bridge item carries the final running total. -/
theorem bridgeItemsAux_getLast_running (rt : ℚ) (drivers : List DriverEval) :
    drivers ≠ [] →
      ∃ it, (bridgeItemsAux rt drivers).getLast? = some it ∧
        it.running_total = some (runningAfter rt (bridgeItemsAux rt drivers)) := by
  induction drivers generalizing rt with
  | nil => intro h; exact absurd rfl h
  | cons d0 ds ih =>
      intro _
      match hf : d0.value_from, ht : d0.value_to with
      | some a, some b =>
          have hcons : bridgeItemsAux rt (d0 :: ds)
              = ⟨d0.driver_key, d0.label, some (b - a), some (rt + (b - a)), false⟩ ::
                bridgeItemsAux (rt + (b - a)) ds := by
            simp [bridgeItemsAux, hf, ht]
          cases hds : ds with
          | nil =>
              subst hds
              rw [hcons]
              exact ⟨_, rfl, rfl⟩
          | cons d1 ds2 =>
              subst hds
              obtain ⟨it, hlast, hrun⟩ := ih (rt + (b - a)) (by simp)
              refine ⟨it, ?_, ?_⟩
              · rw [hcons, getLast?_cons_ne_nil _ (by
                  intro hcon
                  have := congrArg List.length hcon
                  simp [bridgeItemsAux_length] at this)]
                exact hlast
              · rw [hcons, runningAfter_cons]
                exact hrun
      | none, _ =>
          have hcons : bridgeItemsAux rt (d0 :: ds)
              = ⟨d0.driver_key, d0.label, none, some rt, true⟩ ::
                bridgeItemsAux rt ds := by
            simp [bridgeItemsAux, hf]
          cases hds : ds with
          | nil =>
              subst hds
              rw [hcons]
              exact ⟨_, rfl, rfl⟩
          | cons d1 ds2 =>
              subst hds
              obtain ⟨it, hlast, hrun⟩ := ih rt (by simp)
              refine ⟨it, ?_, ?_⟩
              · rw [hcons, getLast?_cons_ne_nil _ (by
                  intro hcon
                  have := congrArg List.length hcon
                  simp [bridgeItemsAux_length] at this)]
                exact hlast
              · rw [hcons, runningAfter_cons]
                exact hrun
      | some a, none =>
          have hcons : bridgeItemsAux rt (d0 :: ds)
              = ⟨d0.driver_key, d0.label, none, some rt, true⟩ ::
                bridgeItemsAux rt ds := by
            simp [bridgeItemsAux, hf, ht]
          cases hds : ds with
          | nil =>
              subst hds
              rw [hcons]
              exact ⟨_, rfl, rfl⟩
          | cons d1 ds2 =>
              subst hds
              obtain ⟨it, hlast, hrun⟩ := ih rt (by simp)
              refine ⟨it, ?_, ?_⟩
              · rw [hcons, getLast?_cons_ne_nil _ (by
                  intro hcon
                  have := congrArg List.length hcon
                  simp [bridgeItemsAux_length] at this)]
                exact hlast
              · rw [hcons, runningAfter_cons]
                exact hrun
/-- **C1** — Variance bridge reconciliation (spec-modelled): with complete
facts for every declared driver (both endpoint values present), the bridge's
endpoints are defined, no item is marked missing, `start.value + sum of
non-null deltas` equals `end.value` (hence is within the one-unit rounding
epsilon), and the `running_total` carried by the last driver's item equals
`end.value`. -/
theorem variance_bridge_reconciliation (drivers : List DriverEval)
    (hall : ∀ d ∈ drivers, (d.value_from).isSome ∧ (d.value_to).isSome) :
    ∃ s e, (bridge drivers).start = some s ∧ (bridge drivers).endVal = some e ∧
      (∀ it ∈ (bridge drivers).items, it.missing_inputs = false ∧ it.delta.isSome) ∧
      s + (((bridge drivers).items.map (fun it => it.delta.getD 0)).sum) = e ∧
      |s + (((bridge drivers).items.map (fun it => it.delta.getD 0)).sum) - e| ≤ 1 ∧
      (drivers ≠ [] → ∃ it, ((bridge drivers).items).getLast? = some it ∧
        it.running_total = some e) := by
  have hs : sumOptions (drivers.map (fun d => d.value_from))
      = some ((drivers.map (fun d => d.value_from.getD 0)).sum) := by
    rw [sumOptions_complete _ (by
      intro v hv
      obtain ⟨d, hd, hdv⟩ := List.mem_map.mp hv
      subst hdv
      exact (hall d hd).1)]
    rw [List.map_map]
    rfl
  have he : sumOptions (drivers.map (fun d => d.value_to))
      = some ((drivers.map (fun d => d.value_to.getD 0)).sum) := by
    rw [sumOptions_complete _ (by
      intro v hv
      obtain ⟨d, hd, hdv⟩ := List.mem_map.mp hv
      subst hdv
      exact (hall d hd).2)]
    rw [List.map_map]
    rfl
  have hstart : (bridge drivers).start
      = some ((drivers.map (fun d => d.value_from.getD 0)).sum) := hs
  have hend : (bridge drivers).endVal
      = some ((drivers.map (fun d => d.value_to.getD 0)).sum) := he
  have hitems : (bridge drivers).items
      = bridgeItemsAux ((drivers.map (fun d => d.value_from.getD 0)).sum) drivers := by
    show bridgeItemsAux ((sumOptions (drivers.map (fun d => d.value_from))).getD 0) drivers = _
    rw [hs]
    rfl
  refine ⟨_, _, hstart, hend, ?_, ?_, ?_, ?_⟩
  · rw [hitems]
    exact bridgeItemsAux_complete_items _ drivers hall
  · rw [hitems, bridgeItemsAux_delta_sum _ drivers hall]
    ring
  · rw [hitems, bridgeItemsAux_delta_sum _ drivers hall]
    simp
  · intro hne
    obtain ⟨it, hlast, hrun⟩ := bridgeItemsAux_getLast_running
      ((drivers.map (fun d => d.value_from.getD 0)).sum) drivers hne
    refine ⟨it, by rw [hitems]; exact hlast, ?_⟩
    rw [hrun, runningAfter_eq_sum, bridgeItemsAux_delta_sum _ drivers hall]
    congr 1
    ring
/-- Witness for C1: two fully populated drivers; the reconciliation
invariant holds for them. -/
theorem variance_bridge_reconciliation_witness :
    (∀ d ∈ ([⟨"income_mix", "Income mix", some 100, some 150⟩,
        ⟨"opex", "OpEx", some 30, some 20⟩] : List DriverEval),
      (d.value_from).isSome ∧ (d.value_to).isSome) ∧
    (∃ s e,
      (bridge [⟨"income_mix", "Income mix", some 100, some 150⟩,
        ⟨"opex", "OpEx", some 30, some 20⟩]).start = some s ∧
      (bridge [⟨"income_mix", "Income mix", some 100, some 150⟩,
        ⟨"opex", "OpEx", some 30, some 20⟩]).endVal = some e ∧
      (∀ it ∈ (bridge [⟨"income_mix", "Income mix", some 100, some 150⟩,
          ⟨"opex", "OpEx", some 30, some 20⟩]).items,
        it.missing_inputs = false ∧ it.delta.isSome) ∧
      s + (((bridge [⟨"income_mix", "Income mix", some 100, some 150⟩,
          ⟨"opex", "OpEx", some 30, some 20⟩]).items.map
            (fun it => it.delta.getD 0)).sum) = e ∧
      |s + (((bridge [⟨"income_mix", "Income mix", some 100, some 150⟩,
          ⟨"opex", "OpEx", some 30, some 20⟩]).items.map
            (fun it => it.delta.getD 0)).sum) - e| ≤ 1 ∧
      (([⟨"income_mix", "Income mix", some 100, some 150⟩,
          ⟨"opex", "OpEx", some 30, some 20⟩] : List DriverEval) ≠ [] →
        ∃ it, ((bridge [⟨"income_mix", "Income mix", some 100, some 150⟩,
            ⟨"opex", "OpEx", some 30, some 20⟩]).items).getLast? = some it ∧
          it.running_total = some e)) :=
  ⟨by decide,
   variance_bridge_reconciliation
     [⟨"income_mix", "Income mix", some 100, some 150⟩,
      ⟨"opex", "OpEx", some 30, some 20⟩] (by decide)⟩
/-- **C2** — Variance bridge running-total fold (spec-modelled): the items
are seeded with `start.value`; there is exactly one item per declared
driver, at the driver's canonical position with its key and label; an item
whose driver has both endpoint values advances the running total by
exactly its delta, and an item with missing inputs has `delta = null`,
keeps the running total unchanged, and still appears at its position. -/
theorem variance_bridge_running_fold (rt : ℚ) (drivers : List DriverEval) :
    (bridge drivers).items
        = bridgeItemsAux (((bridge drivers).start).getD 0) drivers ∧
    (bridgeItemsAux rt drivers).length = drivers.length ∧
    (∀ i d, drivers.get? i = some d →
      ∃ it, (bridgeItemsAux rt drivers).get? i = some it ∧
        it.driver_key = d.driver_key ∧ it.label = d.label ∧
        (∀ a b, d.value_from = some a → d.value_to = some b →
          it.delta = some (b - a) ∧
          it.running_total
            = some (runningAfter rt ((bridgeItemsAux rt drivers).take i) + (b - a)) ∧
          it.missing_inputs = false) ∧
        ((d.value_from = none ∨ d.value_to = none) →
          it.delta = none ∧
          it.running_total = some (runningAfter rt ((bridgeItemsAux rt drivers).take i)) ∧
          it.missing_inputs = true)) :=
  ⟨rfl, bridgeItemsAux_length rt drivers, bridgeItemsAux_fold rt drivers⟩
/-- Witness for C2: seed 5, first driver complete (delta 5), second driver
missing its from-value: the second item sits at index 1, has null delta,
keeps the running total `5 + (15 - 10)` and is marked missing. -/
theorem variance_bridge_running_fold_witness :
    ([⟨"income_mix", "Income mix", some 10, some 15⟩,
      ⟨"opex", "OpEx", none, some 2⟩] : List DriverEval).get? 1
        = some ⟨"opex", "OpEx", none, some 2⟩ ∧
    ∃ it, (bridgeItemsAux 5 [⟨"income_mix", "Income mix", some 10, some 15⟩,
        ⟨"opex", "OpEx", none, some 2⟩]).get? 1 = some it ∧
      it.driver_key = "opex" ∧ it.delta = none ∧
      it.running_total = some (5 + (15 - 10)) ∧ it.missing_inputs = true := by
  refine ⟨rfl, ?_⟩
  obtain ⟨it, hit, h1, h2, h3, h4⟩ :=
    (variance_bridge_running_fold 5 [⟨"income_mix", "Income mix", some 10, some 15⟩,
      ⟨"opex", "OpEx", none, some 2⟩]).2.2 1 ⟨"opex", "OpEx", none, some 2⟩ rfl
  obtain ⟨e1, e2, e3⟩ := h4 (Or.inl rfl)
  exact ⟨it, hit, h1, e1, by rw [e2]; rfl, e3⟩
/-- A single job step never lowers the status rank and never leaves a
terminal state. -/
theorem jobStep_mono {a b : Job} (h : jobStep a b = true) :
    statusRank a.status ≤ statusRank b.status ∧
    (terminalStatus a.status = true → b = a) := by
  simp only [jobStep, Bool.or_eq_true, Bool.and_eq_true, beq_iff_eq,
    decide_eq_true_eq, Bool.not_eq_true] at h
  rcases h with ((((h | ⟨h1, h2⟩) | ⟨⟨h1, h2⟩, h3⟩) | ⟨⟨h1, h2⟩, h3⟩) | ⟨⟨h1, h2⟩, h3⟩)
  · subst h; exact ⟨le_refl _, fun _ => rfl⟩
  · rw [h1, h2]
    exact ⟨by simp [statusRank], by simp [terminalStatus]⟩
  · rw [h1, h2]
    exact ⟨le_refl _, by simp [terminalStatus]⟩
  · rw [h1, h2]
    exact ⟨by simp [statusRank], by simp [terminalStatus]⟩
  · have h1a : terminalStatus a.status = false := by simpa using h1
    constructor
    · rw [h2]
      cases a.status <;> simp [statusRank]
    · intro hcon
      rw [h1a] at hcon
      simp at hcon
/-- **C5** — Export job lifecycle monotonicity (spec-modelled): along any
evolution trace of a job record, the status rank along
`Queued, Running, {Completed|Failed}` never decreases between two
observations (so the observed deduplicated status sequence is a
subsequence of `Queued, Running, terminal`); once a terminal state is
reached every later observation is the identical record, and once
`Completed`, every later poll has `download_ready = true`. -/
theorem export_job_lifecycle (t : List Job)
    (ht : List.Chain' (fun a b => jobStep a b = true) t)
    (i j : Nat) (hij : i ≤ j) (ji jj : Job)
    (hi : t.get? i = some ji) (hj : t.get? j = some jj) :
    statusRank ji.status ≤ statusRank jj.status ∧
    (terminalStatus ji.status = true → jj = ji) ∧
    (ji.status = .completed →
      jj.status = .completed ∧ (statusView jj).download_ready = true) := by
  have key : ∀ n, i ≤ n → ∀ jn, t.get? n = some jn →
      statusRank ji.status ≤ statusRank jn.status ∧
      (terminalStatus ji.status = true → jn = ji) := by
    intro n hn
    induction n, hn using Nat.le_induction with
    | base =>
        intro jn hjn
        rw [hi] at hjn
        cases hjn
        exact ⟨le_refl _, fun _ => rfl⟩
    | succ m hm ih =>
        intro jn hjn
        have hmlt : m + 1 < t.length := (List.get?_eq_some.mp hjn).1
        have hmlt2 : m < t.length := Nat.lt_of_succ_lt hmlt
        have hjm : t.get? m = some (t.get ⟨m, hmlt2⟩) := List.get?_eq_get hmlt2
        obtain ⟨r1, r2⟩ := ih (t.get ⟨m, hmlt2⟩) hjm
        have hstep : jobStep (t.get ⟨m, hmlt2⟩) (t.get ⟨m + 1, hmlt⟩) = true := by
          have := List.chain'_iff_get.mp ht m (by omega)
          convert this using 2
        have hjn2 : jn = t.get ⟨m + 1, hmlt⟩ := by
          rw [List.get?_eq_get hmlt] at hjn
          exact (Option.some_inj.mp hjn).symm
        subst hjn2
        obtain ⟨s1, s2⟩ := jobStep_mono hstep
        constructor
        · exact le_trans r1 s1
        · intro hterm
          have he := r2 hterm
          have : terminalStatus (t.get ⟨m, hmlt2⟩).status = true := by
            rw [he, hterm]
          rw [s2 this, he]
  obtain ⟨k1, k2⟩ := key j hij jj hj
  refine ⟨k1, k2, ?_⟩
  intro hc
  have hterm : terminalStatus ji.status = true := by
    rw [hc]; rfl
  have := k2 hterm
  subst this
  exact ⟨hc, by simp [statusView, hc]⟩
/-- Witness for C5: a concrete queued → running → completed trace; from
the first to the last observation the rank climbs, and the completed
record reports `download_ready`. -/
theorem export_job_lifecycle_witness :
    List.Chain' (fun a b => jobStep a b = true)
      [⟨.queued, 0, none, none⟩, ⟨.running, 50, none, none⟩,
       ⟨.completed, 100, none, some [1, 2]⟩] ∧
    statusRank (JobStatus.queued) ≤ statusRank (JobStatus.completed) ∧
    ((⟨.completed, 100, none, some [1, 2]⟩ : Job).status = .completed ∧
      (statusView ⟨.completed, 100, none, some [1, 2]⟩).download_ready = true) := by
  refine ⟨(by exact List.Chain.cons (by decide) (List.Chain.cons (by decide) List.Chain.nil)), ?_, ?_⟩
  · exact (export_job_lifecycle
      [⟨.queued, 0, none, none⟩, ⟨.running, 50, none, none⟩,
       ⟨.completed, 100, none, some [1, 2]⟩] (by exact List.Chain.cons (by decide) (List.Chain.cons (by decide) List.Chain.nil))
      0 2 (by decide) ⟨.queued, 0, none, none⟩ ⟨.completed, 100, none, some [1, 2]⟩
      rfl rfl).1
  · exact ⟨rfl, ((export_job_lifecycle
      [⟨.queued, 0, none, none⟩, ⟨.running, 50, none, none⟩,
       ⟨.completed, 100, none, some [1, 2]⟩] (by exact List.Chain.cons (by decide) (List.Chain.cons (by decide) List.Chain.nil))
      2 2 (by decide) ⟨.completed, 100, none, some [1, 2]⟩
      ⟨.completed, 100, none, some [1, 2]⟩ rfl rfl).2.2 rfl).2⟩
/-- **C6** — Export download result (spec-modelled): `download` returns
the artifact bytes exactly when the job exists and is completed, a
not-ready error exactly when the job exists in a non-completed state, a
not-found error exactly for an unknown job id — and these three are the
only possible outcomes. -/
theorem download_export_outcomes (table : List (String × Job)) (job_id : String) :
    ((table.find? (fun e => e.1 = job_id)) = none →
        download table job_id = .notFound) ∧
    (∀ p, (table.find? (fun e => e.1 = job_id)) = some p →
        (p.2.status = .completed →
          download table job_id = .artifact (p.2.artifact.getD [])) ∧
        (p.2.status ≠ .completed → download table job_id = .notReady)) ∧
    (download table job_id = .notFound ∨ download table job_id = .notReady ∨
      ∃ bytes, download table job_id = .artifact bytes) := by
  refine ⟨?_, ?_, ?_⟩
  · intro h
    simp [download, h]
  · intro p hp
    constructor
    · intro hc
      simp [download, hp, hc]
    · intro hc
      simp [download, hp, hc]
  · cases hfind : (table.find? (fun e => e.1 = job_id)) with
    | none => exact Or.inl (by simp [download, hfind])
    | some p =>
        by_cases hc : p.2.status = .completed
        · exact Or.inr (Or.inr ⟨p.2.artifact.getD [], by simp [download, hfind, hc]⟩)
        · exact Or.inr (Or.inl (by simp [download, hfind, hc]))
/-- Witness for C6: a one-job table — downloading the completed job yields
its bytes, an unknown id is not found. -/
theorem download_export_outcomes_witness :
    download [("job-1", ⟨.completed, 100, none, some [7]⟩)] "job-1"
        = .artifact [7] ∧
    download [("job-1", ⟨.completed, 100, none, some [7]⟩)] "job-2"
        = .notFound := by
  constructor
  · exact ((download_export_outcomes
      [("job-1", ⟨.completed, 100, none, some [7]⟩)] "job-1").2.1
      ("job-1", ⟨.completed, 100, none, some [7]⟩) (by decide)).1 rfl
  · exact (download_export_outcomes
      [("job-1", ⟨.completed, 100, none, some [7]⟩)] "job-2").1 (by decide)
/-- **C3** — Determinism of evaluation (spec-modelled): for a fixed tuple
`(key, entity, period, scenario, formula_version, snapshot_id)` (the cache
key, with registry and snapshot fixed by the tuple), evaluating twice —
the second time through the cache produced by the first — returns the
identical value and the identical lineage; and on a cache miss the
returned pair is exactly the engine's pure evaluation. -/
theorem evaluation_deterministic (reg : List MetricDefinition) (snap : List Fact)
    (fuel : Nat) (cache : List (CacheKey × (Option ℚ × Lineage))) (ck : CacheKey) :
    ((evalCached reg snap fuel ((evalCached reg snap fuel cache ck).2) ck).1
        = (evalCached reg snap fuel cache ck).1) ∧
    ((evalCached reg snap fuel ((evalCached reg snap fuel cache ck).2) ck).1.1
        = (evalCached reg snap fuel cache ck).1.1 ∧
      (evalCached reg snap fuel ((evalCached reg snap fuel cache ck).2) ck).1.2
        = (evalCached reg snap fuel cache ck).1.2) ∧
    (cache.find? (fun e => e.1 = ck) = none →
      (evalCached reg snap fuel cache ck).1 = evalMetric reg snap fuel ck.key) := by
  have hmain : (evalCached reg snap fuel ((evalCached reg snap fuel cache ck).2) ck).1
      = (evalCached reg snap fuel cache ck).1 := by
    cases hfind : cache.find? (fun e => e.1 = ck) with
    | some e =>
        simp [evalCached, hfind]
    | none =>
        simp [evalCached, hfind, List.find?_cons]
  refine ⟨hmain, ⟨congrArg Prod.fst hmain, congrArg Prod.snd hmain⟩, ?_⟩
  intro h
  simp [evalCached, h]
/-- Witness for C3: a one-metric registry over a one-fact snapshot and an
empty cache — the miss hypothesis holds by computation, the two runs agree,
and the computed value is the fact's value `5`. -/
theorem evaluation_deterministic_witness :
    (([] : List (CacheKey × (Option ℚ × Lineage))).find?
        (fun e => e.1 = (⟨"net_profit", "BankX", "2024-01", "Actual", 1, 0⟩ : CacheKey))
        = none) ∧
    ((evalCached [⟨"net_profit", 1, [.factRef "net_profit"], fun vs => vs.headD none⟩]
        [⟨"BankX", "2024-01", "PL", "net_profit", some 5, "PL", 40, "C", "u1"⟩] 1
        [] ⟨"net_profit", "BankX", "2024-01", "Actual", 1, 0⟩).1
      = evalMetric [⟨"net_profit", 1, [.factRef "net_profit"], fun vs => vs.headD none⟩]
        [⟨"BankX", "2024-01", "PL", "net_profit", some 5, "PL", 40, "C", "u1"⟩] 1
        "net_profit") ∧
    ((evalCached [⟨"net_profit", 1, [.factRef "net_profit"], fun vs => vs.headD none⟩]
        [⟨"BankX", "2024-01", "PL", "net_profit", some 5, "PL", 40, "C", "u1"⟩] 1
        [] ⟨"net_profit", "BankX", "2024-01", "Actual", 1, 0⟩).1.1 = some 5) := by
  refine ⟨rfl, ?_, rfl⟩
  exact (evaluation_deterministic
    [⟨"net_profit", 1, [.factRef "net_profit"], fun vs => vs.headD none⟩]
    [⟨"BankX", "2024-01", "PL", "net_profit", some 5, "PL", 40, "C", "u1"⟩] 1
    [] ⟨"net_profit", "BankX", "2024-01", "Actual", 1, 0⟩).2.2 rfl
end FinanceHub
